import Mathlib

/-!
The integer-set constructor `intsetNew`.

A shallow embedding of `src/test-project/a.c`:

```c
intset* intsetNew(void) {
    intset *is = zmalloc(sizeof(intset));
    is->encoding = intrev32ifbe(INTSET_ENC_INT16);
    is->length = 0;
    return is;
}
```

The function allocates, writes two fields through the pointer it got and returns
the pointer, so it is embedded as a state-passing function over a heap of
allocated blocks. Everything the included header would supply (the constant
`INTSET_ENC_INT16`, `sizeof(intset)`, the host byte order) is a field of
`Target`, so every theorem holds for all values of them.
-/

namespace Intset

/-- What the absent header `/src/ff.h` and the compilation target fix for the
fragment: the host byte order, the value of the constant `INTSET_ENC_INT16`
and the value of `sizeof(intset)`. -/
structure Target where
  bigEndian : Bool
  INTSET_ENC_INT16 : Nat
  sizeofIntset : Nat
deriving DecidableEq

/-- The two fields of the header that the source assigns. A field is `none`
until it has been assigned: the allocator does not clear what it hands out. -/
structure intset where
  encoding : Option Nat
  length : Option Nat
deriving DecidableEq

/-- An allocated block: the number of bytes that were requested for it and the
header fields stored at its start. -/
structure Block where
  size : Nat
  hdr : intset
deriving DecidableEq

/-- The heap: the bytes the allocator can still hand out and the blocks it has
handed out. A pointer is the index of a block in `blocks`. -/
structure Heap where
  free : Nat
  blocks : List Block
deriving DecidableEq

/-- Modelled from the spec: the "generic memory allocator" `zmalloc`, which is
called by the source and defined outside it. A request for `n` bytes yields a
pointer to a fresh block of `n` bytes with unassigned fields, or nothing when
fewer than `n` bytes are left. -/
def zmalloc (h : Heap) (n : Nat) : Option (Nat × Heap) :=
  if n ≤ h.free then
    some (h.blocks.length,
      { free := h.free - n, blocks := h.blocks ++ [{ size := n, hdr := ⟨none, none⟩ }] })
  else
    none

/-- Modelled from the spec: the 32-bit byte reversal behind the byte-order
normalisation, defined outside the source. It reverses the four bytes of a
32-bit value (only the low 32 bits of `v` are read, as for a `uint32_t`
argument). -/
def intrev32 (v : Nat) : Nat :=
  (v % 256) * 16777216 + (v / 256 % 256) * 65536 + (v / 65536 % 256) * 256
    + (v / 16777216 % 256)

/-- Modelled from the spec: the byte-order normalisation `intrev32ifbe`, which
is used by the source and defined in the absent header: the value itself on a
little-endian host, its 32-bit byte reversal on a big-endian host. -/
def intrev32ifbe (t : Target) (v : Nat) : Nat :=
  if t.bigEndian then intrev32 v else v

/-- The block a pointer refers to, if the pointer is one the allocator handed out. -/
def deref (h : Heap) (p : Nat) : Option Block :=
  h.blocks[p]?

/-- An assignment `p->field = ...` to a header field: defined when `p` points to
an allocated block of at least `sizeof(intset)` bytes. -/
def store (t : Target) (h : Heap) (p : Nat) (f : intset → intset) : Option Heap :=
  match deref h p with
  | some blk =>
    if t.sizeofIntset ≤ blk.size then
      some { h with blocks := h.blocks.set p { blk with hdr := f blk.hdr } }
    else
      none
  | none => none

/-- The source function `intsetNew`, statement by statement. The result is the
returned pointer and the heap after the call; `none` stands for
a call that does not return a header (the allocator gave nothing). -/
def intsetNew (t : Target) (h : Heap) : Option (Nat × Heap) := do
  let (is, h) ← zmalloc h t.sizeofIntset
  let h ← store t h is (fun s => { s with encoding := some (intrev32ifbe t t.INTSET_ENC_INT16) })
  let h ← store t h is (fun s => { s with length := some 0 })
  pure (is, h)

/-- The header as `intsetNew` leaves it. -/
def newHeader (t : Target) : Block :=
  { size := t.sizeofIntset,
    hdr := ⟨some (intrev32ifbe t t.INTSET_ENC_INT16), some 0⟩ }

/-! ## Sample inputs -/

/-- A little-endian target with the usual values: marker 2, an 8-byte header. -/
def littleTarget : Target := ⟨false, 2, 8⟩

/-- A big-endian target with the same constants. -/
def bigTarget : Target := ⟨true, 2, 8⟩

/-- An empty heap with 64 bytes to hand out. -/
def emptyHeap : Heap := ⟨64, []⟩

/-- A heap that already holds one foreign 4-byte block. -/
def usedHeap : Heap := ⟨32, [⟨4, ⟨none, none⟩⟩]⟩

/-! ## Lemmas about the substrate -/

theorem intrev32_lt (v : Nat) : intrev32 v < 4294967296 := by
  unfold intrev32
  omega

theorem intrev32_bytes (a b c d : Nat) (ha : a < 256) (hb : b < 256) (hc : c < 256)
    (hd : d < 256) :
    intrev32 (a * 16777216 + b * 65536 + c * 256 + d)
      = d * 16777216 + c * 65536 + b * 256 + a := by
  unfold intrev32
  omega

theorem intrev32_intrev32 (v : Nat) (hv : v < 4294967296) : intrev32 (intrev32 v) = v := by
  have hinner : intrev32 v = (v % 256) * 16777216 + (v / 256 % 256) * 65536
      + (v / 65536 % 256) * 256 + (v / 16777216 % 256) := rfl
  rw [hinner, intrev32_bytes _ _ _ _ (Nat.mod_lt _ (by decide)) (Nat.mod_lt _ (by decide))
    (Nat.mod_lt _ (by decide)) (Nat.mod_lt _ (by decide))]
  have h1 : v / 256 / 256 = v / 65536 := Nat.div_div_eq_div_mul v 256 256
  have h2 : v / 65536 / 256 = v / 16777216 := Nat.div_div_eq_div_mul v 65536 256
  have h3 : v / 16777216 / 256 = v / 4294967296 := Nat.div_div_eq_div_mul v 16777216 256
  omega

theorem intrev32ifbe_lt (t : Target) (v : Nat) (hv : v < 4294967296) :
    intrev32ifbe t v < 4294967296 := by
  unfold intrev32ifbe
  split
  · exact intrev32_lt v
  · exact hv

theorem intrev32ifbe_intrev32ifbe (t : Target) (v : Nat) (hv : v < 4294967296) :
    intrev32ifbe t (intrev32ifbe t v) = v := by
  unfold intrev32ifbe
  split
  · exact intrev32_intrev32 v hv
  · rfl

theorem zmalloc_eq_some (h : Heap) (n p : Nat) (h1 : Heap)
    (hz : zmalloc h n = some (p, h1)) :
    n ≤ h.free ∧ p = h.blocks.length ∧
      h1 = { free := h.free - n, blocks := h.blocks ++ [{ size := n, hdr := ⟨none, none⟩ }] } := by
  unfold zmalloc at hz
  split at hz
  · rename_i hle
    simp only [Option.some.injEq, Prod.mk.injEq] at hz
    exact ⟨hle, hz.1.symm, hz.2.symm⟩
  · simp at hz

theorem intsetNew_of_le (t : Target) (h : Heap) (hle : t.sizeofIntset ≤ h.free) :
    intsetNew t h = some (h.blocks.length,
      { free := h.free - t.sizeofIntset, blocks := h.blocks ++ [newHeader t] }) := by
  simp [intsetNew, zmalloc, hle, store, deref, newHeader, bind, Option.bind]

theorem intsetNew_of_zmalloc (t : Target) (h : Heap) (p : Nat) (h1 : Heap)
    (hz : zmalloc h t.sizeofIntset = some (p, h1)) :
    intsetNew t h = some (p, { h1 with blocks := h.blocks ++ [newHeader t] }) ∧
      deref { h1 with blocks := h.blocks ++ [newHeader t] } p = some (newHeader t) := by
  obtain ⟨hle, hp, hh⟩ := zmalloc_eq_some h _ p h1 hz
  subst hp hh
  refine ⟨intsetNew_of_le t h hle, ?_⟩
  simp [deref]

theorem intsetNew_eq_none_iff (t : Target) (h : Heap) :
    intsetNew t h = none ↔ zmalloc h t.sizeofIntset = none := by
  by_cases hle : t.sizeofIntset ≤ h.free
  · simp [intsetNew_of_le t h hle, zmalloc, hle]
  · simp [intsetNew, zmalloc, hle, bind, Option.bind]

/-- The reversal reads 32 bits only: a marker that does not fit 32 bits is not
recovered, so the round trip below is stated for 32-bit markers. -/
theorem intrev32ifbe_wide_marker :
    intrev32ifbe bigTarget (intrev32ifbe bigTarget 4294967298) = 2 := by
  decide

/-! ## Evaluation on the sample inputs -/

theorem intsetNew_littleTarget :
    intsetNew littleTarget emptyHeap = some (0, ⟨56, [⟨8, ⟨some 2, some 0⟩⟩]⟩) := by
  decide

theorem intsetNew_bigTarget :
    intsetNew bigTarget usedHeap
      = some (1, ⟨24, [⟨4, ⟨none, none⟩⟩, ⟨8, ⟨some 33554432, some 0⟩⟩]⟩) := by
  decide

theorem intsetNew_exhausted : intsetNew bigTarget ⟨7, []⟩ = none := by
  decide

/-! ## The claims -/

/-- C1: whenever the allocator hands back a block for the header, `intsetNew`
returns the pointer to it and the length counter of the header it points to
is 0: the set that was created is empty. -/
theorem intsetNew_length_zero (t : Target) (h : Heap) (p : Nat) (h1 : Heap)
    (hz : zmalloc h t.sizeofIntset = some (p, h1)) :
    ∃ h2 blk, intsetNew t h = some (p, h2) ∧ deref h2 p = some blk ∧
      blk.hdr.length = some 0 := by
  obtain ⟨hnew, hblk⟩ := intsetNew_of_zmalloc t h p h1 hz
  exact ⟨_, newHeader t, hnew, hblk, rfl⟩

theorem intsetNew_length_zero_witness :
    zmalloc emptyHeap littleTarget.sizeofIntset = some (0, ⟨56, [⟨8, ⟨none, none⟩⟩]⟩) ∧
      ∃ h2 blk, intsetNew littleTarget emptyHeap = some (0, h2) ∧ deref h2 0 = some blk ∧
        blk.hdr.length = some 0 :=
  ⟨by decide,
    intsetNew_length_zero littleTarget emptyHeap 0 ⟨56, [⟨8, ⟨none, none⟩⟩]⟩ (by decide)⟩

/-- C2: whenever the allocator hands back a block for the header, the encoding
tag of the header returned by `intsetNew` is `intrev32ifbe(INTSET_ENC_INT16)`,
which is `INTSET_ENC_INT16` itself on a little-endian host and its 32-bit byte
reversal on a big-endian host. -/
theorem intsetNew_encoding (t : Target) (h : Heap) (p : Nat) (h1 : Heap)
    (hz : zmalloc h t.sizeofIntset = some (p, h1)) :
    ∃ h2 blk, intsetNew t h = some (p, h2) ∧ deref h2 p = some blk ∧
      blk.hdr.encoding = some (intrev32ifbe t t.INTSET_ENC_INT16) ∧
      (t.bigEndian = false → intrev32ifbe t t.INTSET_ENC_INT16 = t.INTSET_ENC_INT16) ∧
      (t.bigEndian = true →
        intrev32ifbe t t.INTSET_ENC_INT16 = intrev32 t.INTSET_ENC_INT16) := by
  obtain ⟨hnew, hblk⟩ := intsetNew_of_zmalloc t h p h1 hz
  refine ⟨_, newHeader t, hnew, hblk, rfl, ?_, ?_⟩
  · intro hle
    simp [intrev32ifbe, hle]
  · intro hbe
    simp [intrev32ifbe, hbe]

theorem intsetNew_encoding_witness :
    zmalloc usedHeap bigTarget.sizeofIntset
        = some (1, ⟨24, [⟨4, ⟨none, none⟩⟩, ⟨8, ⟨none, none⟩⟩]⟩) ∧
      ∃ h2 blk, intsetNew bigTarget usedHeap = some (1, h2) ∧ deref h2 1 = some blk ∧
        blk.hdr.encoding = some (intrev32ifbe bigTarget bigTarget.INTSET_ENC_INT16) ∧
        (bigTarget.bigEndian = false →
          intrev32ifbe bigTarget bigTarget.INTSET_ENC_INT16 = bigTarget.INTSET_ENC_INT16) ∧
        (bigTarget.bigEndian = true →
          intrev32ifbe bigTarget bigTarget.INTSET_ENC_INT16
            = intrev32 bigTarget.INTSET_ENC_INT16) :=
  ⟨by decide,
    intsetNew_encoding bigTarget usedHeap 1 ⟨24, [⟨4, ⟨none, none⟩⟩, ⟨8, ⟨none, none⟩⟩]⟩
      (by decide)⟩

/-- C3: `intsetNew` has no error path of its own: whenever the allocator hands
back a block for the header, the call returns the pointer to that block, and
the block then holds the fully initialised header (encoding tag and length
counter both assigned, the block still `sizeof(intset)` bytes large). -/
theorem intsetNew_returns_header (t : Target) (h : Heap) (p : Nat) (h1 : Heap)
    (hz : zmalloc h t.sizeofIntset = some (p, h1)) :
    ∃ h2, intsetNew t h = some (p, h2) ∧
      deref h2 p = some
        { size := t.sizeofIntset,
          hdr := ⟨some (intrev32ifbe t t.INTSET_ENC_INT16), some 0⟩ } := by
  obtain ⟨hnew, hblk⟩ := intsetNew_of_zmalloc t h p h1 hz
  exact ⟨_, hnew, hblk⟩

theorem intsetNew_returns_header_witness :
    zmalloc usedHeap littleTarget.sizeofIntset
        = some (1, ⟨24, [⟨4, ⟨none, none⟩⟩, ⟨8, ⟨none, none⟩⟩]⟩) ∧
      ∃ h2, intsetNew littleTarget usedHeap = some (1, h2) ∧
        deref h2 1 = some
          { size := littleTarget.sizeofIntset,
            hdr := ⟨some (intrev32ifbe littleTarget littleTarget.INTSET_ENC_INT16), some 0⟩ } :=
  ⟨by decide,
    intsetNew_returns_header littleTarget usedHeap 1
      ⟨24, [⟨4, ⟨none, none⟩⟩, ⟨8, ⟨none, none⟩⟩]⟩ (by decide)⟩

/-- C4: on either host byte order, for a marker `INTSET_ENC_INT16` that fits 32
bits, reading the encoding tag stored by `intsetNew` back through
`intrev32ifbe` recovers the marker. -/
theorem intsetNew_encoding_roundtrip (t : Target) (h : Heap) (p : Nat) (h1 : Heap)
    (hz : zmalloc h t.sizeofIntset = some (p, h1))
    (henc : t.INTSET_ENC_INT16 < 4294967296) :
    ∃ h2 blk e, intsetNew t h = some (p, h2) ∧ deref h2 p = some blk ∧
      blk.hdr.encoding = some e ∧ intrev32ifbe t e = t.INTSET_ENC_INT16 := by
  obtain ⟨hnew, hblk⟩ := intsetNew_of_zmalloc t h p h1 hz
  exact ⟨_, newHeader t, _, hnew, hblk, rfl, intrev32ifbe_intrev32ifbe t _ henc⟩

theorem intsetNew_encoding_roundtrip_witness :
    zmalloc emptyHeap bigTarget.sizeofIntset = some (0, ⟨56, [⟨8, ⟨none, none⟩⟩]⟩) ∧
      bigTarget.INTSET_ENC_INT16 < 4294967296 ∧
      ∃ h2 blk e, intsetNew bigTarget emptyHeap = some (0, h2) ∧ deref h2 0 = some blk ∧
        blk.hdr.encoding = some e ∧ intrev32ifbe bigTarget e = bigTarget.INTSET_ENC_INT16 :=
  ⟨by decide, by decide,
    intsetNew_encoding_roundtrip bigTarget emptyHeap 0 ⟨56, [⟨8, ⟨none, none⟩⟩]⟩
      (by decide) (by decide)⟩

/-- C5: whenever the allocator hands back a block for the header, the block
returned by `intsetNew` is exactly `sizeof(intset)` bytes large, so no byte
follows the header, and for every element width the number of elements that
fit behind the header equals the length counter, 0. -/
theorem intsetNew_size_invariant (t : Target) (h : Heap) (p : Nat) (h1 : Heap)
    (hz : zmalloc h t.sizeofIntset = some (p, h1)) :
    ∃ h2 blk, intsetNew t h = some (p, h2) ∧ deref h2 p = some blk ∧
      blk.size = t.sizeofIntset ∧ blk.size - t.sizeofIntset = 0 ∧
      ∀ w : Nat, blk.hdr.length = some ((blk.size - t.sizeofIntset) / w) := by
  obtain ⟨hnew, hblk⟩ := intsetNew_of_zmalloc t h p h1 hz
  refine ⟨_, newHeader t, hnew, hblk, rfl, ?_, ?_⟩
  · simp [newHeader]
  · intro w
    simp [newHeader]

theorem intsetNew_size_invariant_witness :
    zmalloc ⟨8, []⟩ littleTarget.sizeofIntset = some (0, ⟨0, [⟨8, ⟨none, none⟩⟩]⟩) ∧
      ∃ h2 blk, intsetNew littleTarget ⟨8, []⟩ = some (0, h2) ∧ deref h2 0 = some blk ∧
        blk.size = littleTarget.sizeofIntset ∧ blk.size - littleTarget.sizeofIntset = 0 ∧
        ∀ w : Nat, blk.hdr.length = some ((blk.size - littleTarget.sizeofIntset) / w) :=
  ⟨by decide, intsetNew_size_invariant littleTarget ⟨8, []⟩ 0 ⟨0, [⟨8, ⟨none, none⟩⟩]⟩ (by decide)⟩

end Intset
